import Mathlib

/-!
Verification of the Interaction Capture & Code Synthesis Engine of the
automatevnc repository, against its natural-language specification.

JavaScript strings are modelled as lists of characters (`JStr`), JavaScript
numbers as rationals (`ℚ`, NaN and floating-point rounding are outside the
model), and the DOM/React state machines as explicit state-passing functions.
Each definition is a direct translation of the function of the same name in
the repository sources (file and line references in the doc comments).
-/

/-- JavaScript strings, modelled as lists of characters. -/
abbrev JStr := List Char

namespace JsStr

/-- Split a string at a separator character, the semantics of the JavaScript
idiom `s.split(sep)` for a one-character separator.  The empty string yields
one empty part. -/
def splitOnChar (sep : Char) : JStr → List JStr
  | [] => [[]]
  | c :: rest =>
    if c = sep then [] :: splitOnChar sep rest
    else
      match splitOnChar sep rest with
      | [] => [[c]]
      | h :: t => (c :: h) :: t

/-- The JavaScript idiom `s.split('\n')`. -/
def splitNl : JStr → List JStr := splitOnChar '\n'

/-- Join a list of lines with newline separators, the semantics of the
JavaScript idiom `lines.join('\n')`. -/
def joinNl : List JStr → JStr
  | [] => []
  | [l] => l
  | l :: ls => l ++ '\n' :: joinNl ls

/-- JavaScript whitespace characters recognised by `String.prototype.trim`. -/
def isJsSpace (c : Char) : Bool :=
  c = ' ' || c = '\t' || c = '\n' || c = '\r' || c = '\x0b' || c = '\x0c'

/-- The semantics of the JavaScript idiom `s.trim()`. -/
def trim (s : JStr) : JStr :=
  ((s.dropWhile isJsSpace).reverse.dropWhile isJsSpace).reverse

/-- The semantics of the JavaScript idiom `haystack.includes(needle)`:
substring occurrence. -/
def containsSub (haystack needle : JStr) : Bool :=
  match haystack with
  | [] => needle.isEmpty
  | _ :: t => needle.isPrefixOf haystack || containsSub t needle

end JsStr

open JsStr

namespace CodeUtils

/-!  Translation of src/frontend/src/utils/codeUtils.js. -/

/-- `separateGeneratedFromManual(fullCode, generatedLineCount)`
(codeUtils.js, lines 14-34): split the full text at a line count into its
generated prefix and manual suffix. -/
def separateGeneratedFromManual (fullCode : JStr) (generatedLineCount : Nat) :
    JStr × JStr :=
  if fullCode = [] then ([], [])
  else if generatedLineCount = 0 then ([], fullCode)
  else
    let lines := splitNl fullCode
    (joinNl (lines.take generatedLineCount), joinNl (lines.drop generatedLineCount))

/-- `concatenateCodes(generated, manual)` (codeUtils.js, lines 43-60):
concatenate the two regions with a single newline separator. -/
def concatenateCodes (generated manual : JStr) : JStr :=
  if generated = [] ∧ manual = [] then []
  else if generated = [] then manual
  else if manual = [] then generated
  else generated ++ '\n' :: manual

/-- `countLines(code)` (codeUtils.js, lines 69-72): number of lines of a
string, zero for the empty string. -/
def countLines (code : JStr) : Nat :=
  if code = [] then 0 else (splitNl code).length

/-- The `matchIndex` loop of `extractManualCodeFallback` (codeUtils.js,
lines 128-135): walk both line lists in step while trimmed lines are equal,
counting the matches, and stop at the first mismatch or list end. -/
def matchIndexLoop : List JStr → List JStr → Nat
  | g :: gs, f :: fs => if trim g == trim f then 1 + matchIndexLoop gs fs else 0
  | _, _ => 0

/-- `extractManualCodeFallback(generatedCode, fullCode)` (codeUtils.js,
lines 118-140): scan the two texts line by line, comparing trimmed lines,
and return everything after the longest matching line prefix, trimmed. -/
def extractManualCodeFallback (generatedCode fullCode : JStr) : JStr :=
  if generatedCode = [] ∨ fullCode = [] then []
  else
    let generatedLines := splitNl generatedCode
    let fullLines := splitNl fullCode
    let matchIndex := matchIndexLoop generatedLines fullLines
    trim (joinNl (fullLines.drop matchIndex))

/-- Result of a resynthesis merge. -/
structure MergeResult where
  merged : JStr
  hasConflict : Bool
deriving DecidableEq, Repr

/-- `mergeGeneratedAndManual(newGenerated, oldGenerated, fullCode)`
(codeUtils.js, lines 176-195): if the live full text still starts with the
previous generated text, replace that prefix with the new generated text;
otherwise fall back to the line-matching heuristic and flag a conflict. -/
def mergeGeneratedAndManual (newGenerated oldGenerated fullCode : JStr) :
    MergeResult :=
  if oldGenerated.isPrefixOf fullCode then
    { merged := newGenerated ++ fullCode.drop oldGenerated.length
      hasConflict := false }
  else
    { merged := newGenerated ++ '\n' :: extractManualCodeFallback oldGenerated fullCode
      hasConflict := true }

end CodeUtils

open CodeUtils

namespace Validation

/-!  Translation of src/frontend/src/utils/codeValidation.js. -/

/-- The kinds of conflicts reported by `detectCodeConflicts`. -/
inductive ConflictType where
  | mixedApi
  | duplicateImport
  | redefineFunction
deriving DecidableEq, Repr

/-- One conflict entry: a type tag and a human-readable message. -/
structure Conflict where
  ctype : ConflictType
  message : JStr
deriving DecidableEq, Repr

/-- The report returned by `detectCodeConflicts`. -/
structure ConflictReport where
  hasConflicts : Bool
  conflicts : List Conflict
deriving DecidableEq, Repr

/-- The `vncPatterns` literals of codeValidation.js, lines 91-100 (each
regular expression there is a plain substring pattern). -/
def vncPatterns : List JStr :=
  ["client.click(".data, "client.type(".data, "client.press(".data,
   "client.wait(".data, "vnc.click(".data, "vnc.type(".data,
   "vnc.press(".data, "vnc.wait(".data]

/-- Line filter used for the duplicate-import check (codeValidation.js,
lines 113-114): trimmed line starts with `import` or `from`. -/
def isImportLine (l : JStr) : Bool :=
  "import".data.isPrefixOf (trim l) || "from".data.isPrefixOf (trim l)

/-- `manualImport.split(' ')[1]` (codeValidation.js, line 117): the second
space-separated token; when it is absent JavaScript passes `undefined` to
`String.prototype.includes`, which coerces it to the string "undefined". -/
def secondSpaceToken (l : JStr) : JStr :=
  ((splitOnChar ' ' l).get? 1).getD "undefined".data

/-- `detectCodeConflicts(generatedCode, manualCode)` (codeValidation.js,
lines 82-137): empty manual region reports nothing; otherwise scan for
mixed-API use of the automation library (one entry at the first matching
pattern), duplicate imports (one entry per duplicated manual import line),
and a manual redefinition of the entry function (`def run(` occurring in
the manual region). -/
def detectCodeConflicts (generatedCode manualCode : JStr) : ConflictReport :=
  if manualCode = [] then { hasConflicts := false, conflicts := [] }
  else
    let generatedLines := splitNl generatedCode
    let manualLines := splitNl manualCode
    let mixedApi : List Conflict :=
      if vncPatterns.any (fun p => containsSub manualCode p) then
        [{ ctype := ConflictType.mixedApi,
           message := "Manual code uses VNC API - ensure consistency with generated code".data }]
      else []
    let importLines := generatedLines.filter isImportLine
    let manualImportLines := manualLines.filter isImportLine
    let duplicates : List Conflict :=
      manualImportLines.filterMap (fun m =>
        if importLines.any (fun imp => containsSub imp (secondSpaceToken m)) then
          some { ctype := ConflictType.duplicateImport,
                 message := "Duplicate import detected: ".data ++ trim m }
        else none)
    let redefine : List Conflict :=
      if containsSub manualCode "def run(".data then
        [{ ctype := ConflictType.redefineFunction,
           message := "Manual code redefines run() function - this will override generated code".data }]
      else []
    let conflicts := mixedApi ++ duplicates ++ redefine
    { hasConflicts := !conflicts.isEmpty, conflicts := conflicts }

end Validation

namespace Coordinates

/-!  Translation of src/frontend/src/utils/coordinates.js.  JavaScript
numbers are modelled as rationals; `Math.round` rounds half toward
positive infinity. -/

/-- JavaScript `Math.round`: round to the nearest integer, half up. -/
def jsRound (q : ℚ) : ℤ := ⌊q + 1 / 2⌋

/-- The fields of `canvas.getBoundingClientRect()` that the mapper reads. -/
structure CanvasRect where
  left : ℚ
  top : ℚ
  width : ℚ
  height : ℚ
deriving DecidableEq, Repr

/-- `scaleCoordinates(clientX, clientY, canvas, remoteWidth, remoteHeight)`
(coordinates.js, lines 17-37): translate a client point into the canvas,
scale each axis by the remote/display ratio, round, and clamp to
`[0, dimension-1]`. -/
def scaleCoordinates (clientX clientY : ℚ) (rect : CanvasRect)
    (remoteWidth remoteHeight : ℤ) : ℤ × ℤ :=
  let canvasX := clientX - rect.left
  let canvasY := clientY - rect.top
  let remoteX := jsRound (canvasX * ((remoteWidth : ℚ) / rect.width))
  let remoteY := jsRound (canvasY * ((remoteHeight : ℚ) / rect.height))
  (max 0 (min remoteX (remoteWidth - 1)), max 0 (min remoteY (remoteHeight - 1)))

end Coordinates

open Coordinates

namespace Generator

/-!  Translation of src/frontend/src/utils/codeGenerator.js.  The
`Generated:` header line of `generateCode` reads the wall clock
(`new Date().toISOString()`); that clock reading is made an explicit
argument `nowIso` here. -/

/-- A rectangular region attached to a Step. -/
structure Region where
  x : ℚ
  y : ℚ
  width : ℚ
  height : ℚ
deriving DecidableEq, Repr

/-- A recorded Step, with the fields read by the code generator.  Absent
(`undefined`) fields are `none`. -/
structure Step where
  stype : JStr
  order : ℤ := 0
  x : Option ℚ := none
  y : Option ℚ := none
  end_x : Option ℚ := none
  end_y : Option ℚ := none
  text : Option JStr := none
  keys : Option (List JStr) := none
  template : Option JStr := none
  region : Option Region := none
  timeout : Option ℚ := none
  duration : Option ℚ := none
  delay_before : Option ℚ := none
  case_sensitive : Bool := false
  description : Option JStr := none
  direction : Option JStr := none
  clicks : Option ℚ := none
deriving DecidableEq, Repr

/-- Decimal digits of a natural number, the semantics of JavaScript
number-to-string for naturals. -/
def natToStr (n : Nat) : JStr := Nat.toDigits 10 n

/-- Decimal rendering of an integer. -/
def intToStr (i : ℤ) : JStr :=
  if i < 0 then '-' :: natToStr i.natAbs else natToStr i.natAbs

/-- The decimal digit character for `d < 10`. -/
def digitChar (d : Nat) : Char := Char.ofNat (48 + d)

/-- Fractional decimal digits of `num/den` (`0 ≤ num < den`), fuelled. -/
def fracDigits : Nat → ℤ → ℤ → JStr
  | 0, _, _ => []
  | fuel + 1, num, den =>
    if num ≤ 0 then []
    else digitChar ((num * 10) / den).toNat :: fracDigits fuel ((num * 10) % den) den

/-- Decimal rendering of a non-negative rational with terminating decimal
expansion (the only numbers the recorder produces). -/
def jsNumToStrAux (q : ℚ) : JStr :=
  let ip := q.num / (q.den : ℤ)
  let fr := q.num % (q.den : ℤ)
  natToStr ip.toNat ++ (if fr = 0 then [] else '.' :: fracDigits 20 fr (q.den : ℤ))

/-- The semantics of the JavaScript template interpolation of a number. -/
def jsNumToStr (q : ℚ) : JStr :=
  if q < 0 then '-' :: jsNumToStrAux (-q) else jsNumToStrAux q

/-- `${v}` for a possibly-undefined number: `undefined` renders as the
string "undefined". -/
def renderOptNum (v : Option ℚ) : JStr :=
  match v with
  | some q => jsNumToStr q
  | none => "undefined".data

/-- `${v}` for a possibly-undefined string. -/
def renderOptStr (v : Option JStr) : JStr :=
  match v with
  | some s => s
  | none => "undefined".data

/-- `(step.text || '').replace(/"/g, '\\"')`: escape double quotes. -/
def escapeQuotes (s : JStr) : JStr :=
  s.foldr (fun c acc => if c = '"' then '\\' :: '"' :: acc else c :: acc) []

/-- `k.toUpperCase()` for the ASCII key tokens the recorder produces. -/
def jsToUpper (s : JStr) : JStr := s.map Char.toUpper

/-- `list.join(', ')`. -/
def joinCommaSpace : List JStr → JStr
  | [] => []
  | [x] => x
  | x :: xs => x ++ ", ".data ++ joinCommaSpace xs

/-- `step.keys.map(k => Keys.${k.toUpperCase()}).join(', ')`. -/
def keysList (ks : List JStr) : JStr :=
  joinCommaSpace (ks.map (fun k => "Keys.".data ++ jsToUpper k))

/-- The `hintArg` expression of the click cases (codeGenerator.js, lines
116, 123, 130): a hint only when both coordinates are present. -/
def hintArgXY (x y : Option ℚ) : JStr :=
  match x, y with
  | some xv, some yv =>
    ", hint=(".data ++ intToStr (jsRound xv) ++ ", ".data ++
      intToStr (jsRound yv) ++ ")".data
  | _, _ => []

/-- The JavaScript falsy-default idiom `v || d` for numbers (`0` is falsy). -/
def jsOrNum (v : Option ℚ) (d : ℚ) : ℚ :=
  match v with
  | some q => if q = 0 then d else q
  | none => d

/-- The `, region=(x, y, width, height)` argument text. -/
def regionArgStr (r : Region) : JStr :=
  ", region=(".data ++ jsNumToStr r.x ++ ", ".data ++ jsNumToStr r.y ++
    ", ".data ++ jsNumToStr r.width ++ ", ".data ++ jsNumToStr r.height ++ ")".data

/-- `stepToCode(step)` (codeGenerator.js, lines 112-197): the per-type
statement mapping; unknown types (the `default` branch) yield `null`. -/
def stepToCode (step : Step) : Option JStr :=
  if step.stype = "click".data then
    match step.template with
    | some tpl =>
      some ("vnc.click(\"".data ++ tpl ++ "\", timeout=30.0".data ++
        hintArgXY step.x step.y ++ ")".data)
    | none =>
      some ("vnc.click(".data ++ renderOptNum step.x ++ ", ".data ++
        renderOptNum step.y ++ ")".data)
  else if step.stype = "double_click".data then
    match step.template with
    | some tpl =>
      some ("vnc.double_click(\"".data ++ tpl ++ "\", timeout=30.0".data ++
        hintArgXY step.x step.y ++ ")".data)
    | none =>
      some ("vnc.double_click(".data ++ renderOptNum step.x ++ ", ".data ++
        renderOptNum step.y ++ ")".data)
  else if step.stype = "right_click".data then
    match step.template with
    | some tpl =>
      some ("vnc.right_click(\"".data ++ tpl ++ "\", timeout=30.0".data ++
        hintArgXY step.x step.y ++ ")".data)
    | none =>
      some ("vnc.right_click(".data ++ renderOptNum step.x ++ ", ".data ++
        renderOptNum step.y ++ ")".data)
  else if step.stype = "type".data then
    let text := escapeQuotes (step.text.getD [])
    let keysArg :=
      match step.keys with
      | some ks => if ks = [] then [] else ", [".data ++ keysList ks ++ "]".data
      | none => []
    some ("vnc.type(\"".data ++ text ++ "\"".data ++ keysArg ++ ")".data)
  else if step.stype = "key_press".data then
    match step.keys with
    | some ks =>
      if ks = [] then none else some ("vnc.press(".data ++ keysList ks ++ ")".data)
    | none => none
  else if step.stype = "key_combo".data then
    match step.keys with
    | some ks =>
      if ks = [] then none
      else some ("vnc.key_combo(".data ++ keysList ks ++ ")".data)
    | none => none
  else if step.stype = "wait_for_image".data then
    let args :=
      match step.region with
      | some r =>
        regionArgStr r ++
          ", hint=(".data ++ intToStr (jsRound (r.x + r.width / 2)) ++
            ", ".data ++ intToStr (jsRound (r.y + r.height / 2)) ++ ")".data
      | none => hintArgXY step.x step.y
    some ("vnc.wait_for_image(\"".data ++ renderOptStr step.template ++
      "\", timeout=".data ++ jsNumToStr (jsOrNum step.timeout 30) ++ args ++ ")".data)
  else if step.stype = "wait_for_text".data then
    let text := escapeQuotes (step.text.getD [])
    let regionArg :=
      match step.region with
      | some r => regionArgStr r
      | none => []
    let caseArg := if step.case_sensitive then ", case_sensitive=true".data else []
    some ("vnc.wait_for_text(\"".data ++ text ++ "\", timeout=".data ++
      jsNumToStr (jsOrNum step.timeout 30) ++ regionArg ++ caseArg ++ ")".data)
  else if step.stype = "wait".data then
    some ("vnc.wait(".data ++ jsNumToStr (jsOrNum step.duration 1) ++ ")".data)
  else if step.stype = "screenshot".data then
    some "vnc.save_screenshot(\"screenshot.png\")".data
  else if step.stype = "drag".data then
    some ("vnc.drag(".data ++ renderOptNum step.x ++ ", ".data ++
      renderOptNum step.y ++ ", ".data ++ renderOptNum step.end_x ++ ", ".data ++
      renderOptNum step.end_y ++ ")".data)
  else none

/-- The lines contributed by one Step inside the entry function
(codeGenerator.js, lines 64-79): an optional wait line (pushed before the
statement is computed, hence emitted even when the statement is dropped),
then an optional comment line and the statement itself. -/
def stepLines (step : Step) : List JStr :=
  let waitLines : List JStr :=
    match step.delay_before with
    | some d =>
      if d > (0.1 : ℚ) then ["    vnc.wait(".data ++ jsNumToStr d ++ ")".data]
      else []
    | none => []
  let codeLines : List JStr :=
    match stepToCode step with
    | some codeLine =>
      (match step.description with
       | some ds => if ds = [] then [] else ["    # ".data ++ ds]
       | none => []) ++ ["    ".data ++ codeLine]
    | none => []
  waitLines ++ codeLines

/-- Stable insertion of a Step into an order-sorted list: a later-recorded
Step lands after Steps of equal `order`. -/
def insertStep (s : Step) : List Step → List Step
  | [] => [s]
  | t :: ts => if s.order < t.order then s :: t :: ts else t :: insertStep s ts

/-- `[...steps].sort((a, b) => a.order - b.order)` (codeGenerator.js, line
62): a stable ascending sort by `order` (JavaScript array sort is stable). -/
def sortSteps (steps : List Step) : List Step :=
  steps.foldl (fun acc s => insertStep s acc) []

/-- The fixed harness block (codeGenerator.js, lines 82-101). -/
def footerLines : List JStr :=
  [[],
   "if __name__ == \"__main__\":".data,
   "    from autovnc import VNCClient, ExecutionContext".data,
   "    import os".data,
   [],
   "    # Connection configuration".data,
   "    HOST = os.environ.get(\"VNC_HOST\", \"localhost\")".data,
   "    PORT = int(os.environ.get(\"VNC_PORT\", 5900))".data,
   "    PASSWORD = os.environ.get(\"VNC_PASSWORD\", None)".data,
   [],
   "    client = VNCClient(HOST, PORT, password=PASSWORD)".data,
   "    try:".data,
   "        client.connect()".data,
   "        ctx = ExecutionContext(client)".data,
   "        ctx.wait(2) # Wait for connection to stabilize".data,
   "        run(ctx)".data,
   "    finally:".data,
   "        # Only disconnect if running in headless mode".data,
   "        if os.environ.get(\"AUTOVNC_HEADLESS\", \"false\").lower() == \"true\":".data,
   "            client.disconnect()".data]

/-- `generateCode(steps, scriptName, description)` (codeGenerator.js, lines
43-104): header comment block (whose `Generated:` line interpolates the
wall-clock reading `nowIso`), import, entry function with one statement
per Step in `order` (placeholder `pass` when empty), and the harness. -/
def generateCode (steps : List Step) (scriptName description nowIso : JStr) : JStr :=
  let header : List JStr :=
    ["\"\"\"".data,
     "AutoVNC Script: ".data ++ scriptName,
     "Generated: ".data ++ nowIso,
     [],
     (if description = [] then "No description".data else description),
     "\"\"\"".data,
     [],
     "from autovnc import Keys".data,
     [],
     [],
     "def run(vnc):".data,
     "    \"\"\"Execute the automation script.\"\"\"".data]
  let body : List JStr :=
    if steps = [] then ["    pass".data]
    else
      let sortedSteps := sortSteps steps
      sortedSteps.foldr (fun s acc => stepLines s ++ acc) []
  joinNl (header ++ body ++ footerLines)

end Generator

open Generator

namespace Editor

/-!  Translation of the `insertCode` method of
src/frontend/src/components/CodeEditor.jsx (lines 47-223), Monaco path
with `shouldUseRunFunction` — the path every live capture insertion takes
(`insertCode(snippet, true)`).  The Monaco document is modelled as its list
of lines; `executeEdits` with a single-line range and an insertion text is
modelled by splicing the replacement text into that list. -/

/-- Length of the leading-whitespace match `/^\s*/` of a line. -/
def indentLen (l : JStr) : Nat := (l.takeWhile isJsSpace).length

/-- The structural pattern `/^\s*def\s+run\s*\(/` of CodeEditor.jsx line 73:
optional leading whitespace, `def`, at least one whitespace, `run`,
optional whitespace, `(`. -/
def matchesDefRun (l : JStr) : Bool :=
  let r0 := l.dropWhile isJsSpace
  if "def".data.isPrefixOf r0 then
    let r1 := r0.drop 3
    match r1 with
    | [] => false
    | c :: _ =>
      if isJsSpace c then
        let r2 := r1.dropWhile isJsSpace
        if "run".data.isPrefixOf r2 then
          let r3 := (r2.drop 3).dropWhile isJsSpace
          "(".data.isPrefixOf r3
        else false
      else false
  else false

/-- The search loop of CodeEditor.jsx lines 72-77: the 1-based line number
of the first line matching the entry-function pattern. -/
def findRunLine : List JStr → Nat → Option Nat
  | [], _ => none
  | l :: ls, i => if matchesDefRun l then some (i + 1) else findRunLine ls (i + 1)

/-- The block scan of CodeEditor.jsx lines 89-110: walk the lines after
the header (0-based index `i`), stopping at the first non-blank,
non-comment line whose indentation is at or below the header's; track the
last `pass` line (1-based) and the last line of the block (1-based). -/
def scanBlock (baseIndent : Nat) :
    List JStr → Nat → Nat → Option Nat → Nat × Option Nat
  | [], _, insertLine, passLine => (insertLine, passLine)
  | l :: ls, i, insertLine, passLine =>
    if trim l ≠ [] ∧ ("#".data.isPrefixOf (trim l)) = false ∧
        indentLen l ≤ baseIndent then
      (insertLine, passLine)
    else
      let passLine' := if trim l = "pass".data then some (i + 1) else passLine
      scanBlock baseIndent ls (i + 1) (i + 1) passLine'

/-- The backtracking loop of CodeEditor.jsx lines 115-117: move the insert
line up over trailing blank lines, not above the header line. -/
def backtrackBlank (lines : List JStr) (runLine : Nat) : Nat → Nat
  | 0 => 0
  | n + 1 =>
    if n + 1 > runLine ∧ trim ((lines.get? n).getD []) = [] then
      backtrackBlank lines runLine n
    else n + 1

/-- The result record of `findInsertionPosition` (CodeEditor.jsx lines
126-132). -/
structure InsertPos where
  lineNumber : Nat
  column : Nat
  indent : JStr
  replacePass : Bool
  replaceLine : Nat
deriving DecidableEq, Repr

/-- `findInsertionPosition()` (CodeEditor.jsx, lines 66-135). -/
def findInsertionPosition (lines : List JStr) : Option InsertPos :=
  match findRunLine lines 0 with
  | none => none
  | some runFunctionLine =>
    let defLine := (lines.get? (runFunctionLine - 1)).getD []
    let baseIndentLength := indentLen defLine
    let scanned :=
      scanBlock baseIndentLength (lines.drop runFunctionLine)
        runFunctionLine runFunctionLine none
    let insertLine := backtrackBlank lines runFunctionLine scanned.1
    some { lineNumber := insertLine
           column := 1
           indent := "    ".data
           replacePass := scanned.2.isSome
           replaceLine := scanned.2.getD insertLine }

/-- Monaco `executeEdits` replacing the full content of 1-based line `k`
with `t` (which may contain newlines): the line's own text is replaced,
its trailing newline kept. -/
def replaceLineWith (lines : List JStr) (k : Nat) (t : JStr) : List JStr :=
  lines.take (k - 1) ++ splitNl t ++ lines.drop k

/-- Monaco `executeEdits` inserting `t` at column 1 of 1-based line `k`
(clamped to the document end when `k` is past the last line). -/
def insertTextAt (lines : List JStr) (k : Nat) (t : JStr) : List JStr :=
  if k ≤ lines.length then
    lines.take (k - 1) ++ splitNl (t ++ (lines.get? (k - 1)).getD []) ++ lines.drop k
  else
    match lines with
    | [] => splitNl t
    | _ => lines.take (lines.length - 1) ++ splitNl ((lines.getLast?).getD [] ++ t)

/-- The replace-`pass` insertion text (CodeEditor.jsx lines 159-161):
every snippet line re-indented, except a leading empty line, plus a
trailing newline. -/
def indentForReplace (indent text : JStr) : JStr :=
  joinNl ((splitNl text).enum.map
    (fun p => if p.1 = 0 ∧ p.2 = [] then [] else indent ++ p.2)) ++ ['\n']

/-- The append insertion text (CodeEditor.jsx lines 167-169): every
non-blank snippet line re-indented, plus a trailing newline. -/
def indentForAppend (indent text : JStr) : JStr :=
  joinNl ((splitNl text).map
    (fun l => if trim l = [] then [] else indent ++ l)) ++ ['\n']

/-- `insertCode(text, true)` (CodeEditor.jsx, lines 47-204, Monaco path
with `shouldUseRunFunction`): replace the `pass` line with the re-indented
snippet; otherwise append the re-indented snippet after the block's last
line; without an entry function, append at end of file behind a blank
separator when the last line is non-blank. -/
def insertCodeRun (lines : List JStr) (text : JStr) : List JStr :=
  match findInsertionPosition lines with
  | some pos =>
    if pos.replacePass then
      replaceLineWith lines pos.replaceLine (indentForReplace pos.indent text)
    else
      insertTextAt lines (pos.lineNumber + 1) (indentForAppend pos.indent text)
  | none =>
    let lastLine := (lines.getLast?).getD []
    let blankSep : JStr := if trim lastLine = [] then [] else "\n\n".data
    lines.take (lines.length - 1) ++ splitNl (lastLine ++ blankSep ++ text ++ ['\n'])

/-- The entry-function body of a buffer, by the same block rule as the
scan: the lines after the first entry-function header whose indentation
exceeds the header's, skipping blank lines, up to the first non-blank
non-comment line at or below the header's indentation. -/
def collectBody (baseIndent : Nat) : List JStr → List JStr
  | [] => []
  | l :: ls =>
    if trim l = [] then collectBody baseIndent ls
    else if ("#".data.isPrefixOf (trim l)) = false ∧ indentLen l ≤ baseIndent then []
    else l :: collectBody baseIndent ls

/-- The non-blank body lines of the buffer's entry function. -/
def entryBodyLines (lines : List JStr) : List JStr :=
  match findRunLine lines 0 with
  | none => []
  | some runFunctionLine =>
    let defLine := (lines.get? (runFunctionLine - 1)).getD []
    collectBody (indentLen defLine) (lines.drop runFunctionLine)

end Editor

open Editor

namespace Classifier

/-!  Translation of the mouse-interaction classifier of
src/frontend/src/components/VNCViewer.jsx: `handleMouseDown` (lines
249-286), `handleMouseMoveCapture` (lines 288-299), `handleMouseUpCapture`
(lines 301-335) and `processMouseAction` (lines 337-424).  `Date.now()` is
the event's timestamp; the 250ms `setTimeout` buffering a plain click is
modelled by storing the buffered action together with its fire time, the
timer firing before any event at or past that time and after the event
stream ends. -/

/-- A primitive pointer event: client coordinates, button, click count
(`detail`) and arrival time in milliseconds. -/
structure Ev where
  clientX : ℚ
  clientY : ℚ
  button : ℕ
  detail : ℕ
  time : ℕ
deriving DecidableEq, Repr

/-- The session geometry read by the handlers: the canvas bounding
rectangle and the remote screen size. -/
structure Geometry where
  rect : CanvasRect
  screenWidth : ℤ
  screenHeight : ℤ
deriving DecidableEq, Repr

/-- A committed Action record (the `stepData` object). -/
structure Action where
  atype : JStr
  x : ℤ
  y : ℤ
  end_x : Option ℤ := none
  end_y : Option ℤ := none
  delay_before : ℚ := 0
  time : ℕ := 0
  originalType : Option JStr := none
deriving DecidableEq, Repr

/-- The `dragDataRef` record (VNCViewer.jsx, lines 273-281). -/
structure DragData where
  startX : ℤ
  startY : ℤ
  clientStartX : ℚ
  clientStartY : ℚ
  isDragging : Bool
  button : ℕ
  detail : ℕ
deriving DecidableEq, Repr

/-- The state read by `processMouseAction`: the buffered plain click with
its timer's fire time (`clickTimeoutRef`) and `lastActionTimeRef`. -/
structure PendingState where
  pendingClick : Option (Action × ℕ) := none
  lastActionTime : Option ℕ := none
deriving DecidableEq, Repr

/-- The whole per-session mouse state. -/
structure SessionState where
  dragData : Option DragData := none
  pending : PendingState := {}
deriving DecidableEq, Repr

/-- `delay_before = Math.round((now - last) / 100) / 10` (VNCViewer.jsx,
lines 352-357), zero when there is no previous action. -/
def delayBefore (lastActionTime : Option ℕ) (now : ℕ) : ℚ :=
  match lastActionTime with
  | some t => ((jsRound (((now - t : ℕ) : ℚ) / 100) : ℤ) : ℚ) / 10
  | none => 0

/-- `processMouseAction(e, forcedButton, forcedDetail)` (VNCViewer.jsx,
lines 337-424): classify by button and click count, clear any pending
click timer, then either buffer a plain (or smart plain) click for 250ms
or commit immediately. -/
def processMouseAction (g : Geometry) (smart : Bool) (e : Ev)
    (forcedButton forcedDetail : Option ℕ) (s : PendingState) :
    PendingState × List Action :=
  let button := forcedButton.getD e.button
  let detail := forcedDetail.getD e.detail
  let coords := scaleCoordinates e.clientX e.clientY g.rect g.screenWidth g.screenHeight
  let now := e.time
  let delay := delayBefore s.lastActionTime now
  let baseType : JStr :=
    if button = 2 then "right_click".data
    else if detail = 2 then "double_click".data
    else "click".data
  let a : Action :=
    if smart then
      { atype := "smart_click".data, x := coords.1, y := coords.2,
        delay_before := delay, time := now, originalType := some baseType }
    else
      { atype := baseType, x := coords.1, y := coords.2,
        delay_before := delay, time := now }
  if a.atype = "click".data ∨
      (a.atype = "smart_click".data ∧ a.originalType = some "click".data) then
    ({ pendingClick := some (a, now + 250), lastActionTime := some now }, [])
  else
    ({ pendingClick := none, lastActionTime := some now }, [a])

/-- `handleMouseDown(e)` (VNCViewer.jsx, lines 249-286), recording path
outside assertion-capture mode: a primary-button press initialises drag
detection; any other button is processed immediately. -/
def handleMouseDown (g : Geometry) (smart : Bool) (e : Ev) (s : SessionState) :
    SessionState × List Action :=
  if e.button = 0 then
    let coords := scaleCoordinates e.clientX e.clientY g.rect g.screenWidth g.screenHeight
    ({ s with dragData := some ({
        startX := coords.1, startY := coords.2,
        clientStartX := e.clientX, clientStartY := e.clientY,
        isDragging := false, button := e.button, detail := e.detail }) }, [])
  else
    let (p, acts) := processMouseAction g smart e none none s.pending
    ({ s with pending := p }, acts)

/-- `handleMouseMoveCapture(e)` (VNCViewer.jsx, lines 288-299): once a
move exceeds 10 units from the start on either axis, mark the interaction
as dragging; already-dragging or idle states are untouched. -/
def handleMouseMoveCapture (e : Ev) (dd : Option DragData) : Option DragData :=
  match dd with
  | none => none
  | some d =>
    if d.isDragging then some d
    else
      let dx := |e.clientX - d.clientStartX|
      let dy := |e.clientY - d.clientStartY|
      if dx > 10 ∨ dy > 10 then some { d with isDragging := true } else some d

/-- `handleMouseUpCapture(e)` (VNCViewer.jsx, lines 301-335): while
dragging, commit a single drag Action with start and end remote
coordinates and clear the drag state; otherwise classify the release as a
click through `processMouseAction` with the press's button and detail. -/
def handleMouseUpCapture (g : Geometry) (smart : Bool) (e : Ev)
    (s : SessionState) : SessionState × List Action :=
  match s.dragData with
  | none => (s, [])
  | some d =>
    if d.isDragging then
      let coords := scaleCoordinates e.clientX e.clientY g.rect g.screenWidth g.screenHeight
      let delay := delayBefore s.pending.lastActionTime e.time
      ({ dragData := none,
         pending := { pendingClick := s.pending.pendingClick,
                      lastActionTime := some e.time } },
       [{ atype := "drag".data, x := d.startX, y := d.startY,
          end_x := some coords.1, end_y := some coords.2,
          delay_before := delay, time := e.time }])
    else
      let (p, acts) := processMouseAction g smart e (some d.button) (some d.detail)
        s.pending
      ({ dragData := none, pending := p }, acts)

/-- The click-buffer timer firing: when time reaches the buffered fire
time, the buffered click commits. -/
def flushPending (s : PendingState) (now : ℕ) : PendingState × List Action :=
  match s.pendingClick with
  | some (a, ft) =>
    if ft ≤ now then ({ s with pendingClick := none }, [a]) else (s, [])
  | none => (s, [])

/-- Run a time-ordered stream of release events through
`processMouseAction`, firing the click-buffer timer as time passes; a
click still buffered when the stream ends commits when its timer fires. -/
def runReleases (g : Geometry) (smart : Bool) :
    PendingState → List Ev → List Action
  | s, [] =>
    match s.pendingClick with
    | some (a, _) => [a]
    | none => []
  | s, e :: es =>
    let fp := flushPending s e.time
    let pc := processMouseAction g smart e none none fp.1
    fp.2 ++ pc.2 ++ runReleases g smart pc.1 es

end Classifier

open Classifier

namespace AsyncInsert

/-!  Model of the asynchronous template-capture insertions of
`handleVNCInteraction` (src/frontend/src/components/StepTimeline.jsx,
lines 699-820).  For the `wait_for_image` and `smart_click` cases the
handler spawns a detached async task — `(async () => { const res = await
scriptsApi.createSmartTemplate(...); editorRef.current?.insertCode(...)
})()` — and returns; no queue object exists and no task awaits another, so
each task's `insertCode` call runs when its own capture promise resolves.
The event loop is modelled explicitly: a task is a (commit index, resolve
time) pair, and the editor receives the insertions sorted by resolve time
(stable for simultaneous resolutions). -/

/-- One spawned insertion task: the commit-order index of its triggering
Action and the time its template capture resolves. -/
structure InsertionTask where
  commitIndex : ℕ
  resolveTime : ℕ
deriving DecidableEq, Repr

/-- Stable insertion by resolve time. -/
def insertTask (t : InsertionTask) : List InsertionTask → List InsertionTask
  | [] => [t]
  | u :: us => if t.resolveTime < u.resolveTime then t :: u :: us
               else u :: insertTask t us

/-- The order in which `insertCode` runs for a list of tasks given in
commit order: ascending resolve time, ties in commit order — the
semantics of the detached, unserialized async tasks the handler spawns. -/
def insertionOrder (tasks : List InsertionTask) : List ℕ :=
  (tasks.foldl (fun acc t => insertTask t acc) []).map
    (fun t => t.commitIndex)

end AsyncInsert

/-! ## Theorems -/

theorem splitOnChar_ne_nil (sep : Char) (s : JStr) : splitOnChar sep s ≠ [] := by
  cases s with
  | nil => simp [splitOnChar]
  | cons c rest =>
    simp only [splitOnChar]
    split
    · simp
    · cases h : splitOnChar sep rest <;> simp

theorem splitNl_ne_nil (s : JStr) : splitNl s ≠ [] :=
  splitOnChar_ne_nil '\n' s

theorem splitOnChar_append_sep (sep : Char) (a b : JStr) :
    splitOnChar sep (a ++ sep :: b) = splitOnChar sep a ++ splitOnChar sep b := by
  induction a with
  | nil => simp [splitOnChar]
  | cons c rest ih =>
    by_cases hc : c = sep
    · subst hc
      simp [splitOnChar, ih]
    · cases h : splitOnChar sep rest with
      | nil => exact absurd h (splitOnChar_ne_nil sep rest)
      | cons h' t' =>
        simp [splitOnChar, if_neg hc, ih, h, List.cons_append]

theorem splitNl_append_newline (a b : JStr) :
    splitNl (a ++ '\n' :: b) = splitNl a ++ splitNl b :=
  splitOnChar_append_sep '\n' a b

theorem joinNl_cons_cons (c : Char) (h : JStr) (t : List JStr) :
    joinNl ((c :: h) :: t) = c :: joinNl (h :: t) := by
  cases t <;> simp [joinNl]

theorem joinNl_splitNl (s : JStr) : joinNl (splitNl s) = s := by
  induction s with
  | nil => simp [splitNl, splitOnChar, joinNl]
  | cons c rest ih =>
    by_cases hc : c = '\n'
    · subst hc
      have hne := splitNl_ne_nil rest
      simp only [splitNl, splitOnChar, if_pos rfl]
      cases h : splitNl rest with
      | nil => exact absurd h hne
      | cons h' t' =>
        rw [h] at ih
        rw [show splitOnChar '\n' rest = h' :: t' from h]
        simp [joinNl, ih]
    · have hne := splitNl_ne_nil rest
      simp only [splitNl, splitOnChar, if_neg hc]
      cases h : splitNl rest with
      | nil => exact absurd h hne
      | cons h' t' =>
        rw [h] at ih
        rw [show splitOnChar '\n' rest = h' :: t' from h, joinNl_cons_cons, ih]

/-- Helper: the `matchIndex` loop computes the length of the longest prefix
of the zipped line lists on which the trimmed lines agree. -/
theorem matchIndexLoop_eq_takeWhile (g f : List JStr) :
    matchIndexLoop g f =
      ((g.zip f).takeWhile (fun p => trim p.1 == trim p.2)).length := by
  induction g generalizing f with
  | nil => cases f <;> simp [matchIndexLoop]
  | cons gh gt ih =>
    cases f with
    | nil => simp [matchIndexLoop]
    | cons fh ft =>
      cases hb : (trim gh == trim fh) <;>
        simp [matchIndexLoop, List.takeWhile_cons, hb, ih, Nat.add_comm]

/-- C3, counterexample to the claim as stated: with previous generated text
"a", fresh generated text "b" and live full text "x\nm " (which does not
start with "a", and none of whose lines match a line of "a"), the suffix
after the last matching line is the whole live text "x\nm ", yet the merge
result is "b\nx\nm": the trailing space has been trimmed away, so that
suffix is not preserved — it does not even occur in the merge result. -/
theorem mergeGeneratedAndManual_trims_manual_suffix :
    (mergeGeneratedAndManual "b".data "a".data "x\nm ".data).hasConflict = true ∧
    (mergeGeneratedAndManual "b".data "a".data "x\nm ".data).merged = "b\nx\nm".data ∧
    containsSub
      (mergeGeneratedAndManual "b".data "a".data "x\nm ".data).merged
      "x\nm ".data = false := by
  decide

/-- C3 (amended).  Resynthesis merge: if the live full text is
`G1 ++ "\n" ++ M` (hence starts with `G1` verbatim), merging with fresh
generated text `G2` returns exactly `G2 ++ "\n" ++ M` with no conflict flag;
if the live full text does not start with `G1`, the result is flagged as a
conflict and equals `G2 ++ "\n"` followed by everything after the longest
prefix of lines whose trimmed forms match `G1`'s, itself trimmed of leading
and trailing whitespace. -/
theorem mergeGeneratedAndManual_resynthesis :
    (∀ G1 G2 M : JStr, G1 ≠ [] →
      mergeGeneratedAndManual G2 G1 (G1 ++ '\n' :: M) =
        ⟨G2 ++ '\n' :: M, false⟩) ∧
    (∀ G1 G2 F : JStr, G1.isPrefixOf F = false →
      mergeGeneratedAndManual G2 G1 F =
        ⟨G2 ++ '\n' :: trim (joinNl ((splitNl F).drop
          (((splitNl G1).zip (splitNl F)).takeWhile
            (fun p => trim p.1 == trim p.2)).length)), true⟩) := by
  constructor
  · intro G1 G2 M _
    have hpre : G1.isPrefixOf (G1 ++ '\n' :: M) = true :=
      List.isPrefixOf_iff_prefix.mpr (List.prefix_append _ _)
    simp [mergeGeneratedAndManual, hpre, List.drop_left]
  · intro G1 G2 F h
    have hG1 : G1 ≠ [] := by
      intro e
      subst e
      simp [List.isPrefixOf] at h
    rw [← matchIndexLoop_eq_takeWhile]
    by_cases hF : F = []
    · subst hF
      have hguard : G1 = [] ∨ ([] : JStr) = [] := Or.inr rfl
      have hk : ∀ k : Nat, trim (joinNl ((splitNl ([] : JStr)).drop k)) = [] := by
        intro k
        cases k <;> simp [splitNl, splitOnChar, joinNl, trim]
      simp [mergeGeneratedAndManual, h, extractManualCodeFallback, hk]
    · simp [mergeGeneratedAndManual, h, extractManualCodeFallback, hG1, hF]

/-- C3, witness: the amended resynthesis theorem applied at concrete inputs
on both branches. -/
theorem mergeGeneratedAndManual_resynthesis_witness :
    mergeGeneratedAndManual "G2".data "G1".data "G1\nmanual".data =
      ⟨"G2\nmanual".data, false⟩ ∧
    mergeGeneratedAndManual "n".data "o".data "z\nk".data =
      ⟨"n\nz\nk".data, true⟩ := by
  constructor
  · have h := mergeGeneratedAndManual_resynthesis.1
      "G1".data "G2".data "manual".data (by decide)
    have e1 : "G1\nmanual".data = "G1".data ++ '\n' :: "manual".data := by decide
    have e2 : "G2\nmanual".data = "G2".data ++ '\n' :: "manual".data := by decide
    rw [e1, e2]
    exact h
  · have h := mergeGeneratedAndManual_resynthesis.2
      "o".data "n".data "z\nk".data (by decide)
    rw [h]
    decide

/-- C10.  Round-trip of the generated/manual split: recombining a generated
text `G` and a manual text `M` with `concatenateCodes` and splitting again at
`countLines G` returns exactly the pair `(G, M)`, including when either part
is empty. -/
theorem codeUtils_separate_concatenate_roundtrip (G M : JStr) :
    separateGeneratedFromManual (concatenateCodes G M) (countLines G) = (G, M) := by
  by_cases hG : G = []
  · subst hG
    by_cases hM : M = []
    · subst hM
      simp [concatenateCodes, countLines, separateGeneratedFromManual]
    · simp [concatenateCodes, countLines, separateGeneratedFromManual, hM]
  · have hGn : countLines G = (splitNl G).length := by simp [countLines, hG]
    have hlen : (splitNl G).length ≠ 0 := by
      intro h
      exact splitNl_ne_nil G (List.length_eq_zero.mp h)
    by_cases hM : M = []
    · subst hM
      have hcat : concatenateCodes G [] = G := by simp [concatenateCodes, hG]
      rw [hcat, separateGeneratedFromManual, if_neg hG, hGn, if_neg hlen]
      simp [joinNl_splitNl, joinNl]
    · have hcat : concatenateCodes G M = G ++ '\n' :: M := by
        simp [concatenateCodes, hG, hM]
      have hfull : G ++ '\n' :: M ≠ [] := by simp
      rw [hcat, separateGeneratedFromManual, if_neg hfull, hGn, if_neg hlen,
        splitNl_append_newline]
      simp [List.take_left, List.drop_left, joinNl_splitNl]

/-- C8.  For every manual-region text containing a redefinition of the entry
function (an occurrence of "def run("), the validator's conflict scan
reports a hard redefine-function conflict: `hasConflicts` is true and the
conflict list holds a redefine-function entry, whatever else the scan finds. -/
theorem detectCodeConflicts_reports_redefine (generated manual : JStr)
    (h : containsSub manual "def run(".data = true) :
    (Validation.detectCodeConflicts generated manual).hasConflicts = true ∧
    ∃ c ∈ (Validation.detectCodeConflicts generated manual).conflicts,
      c.ctype = Validation.ConflictType.redefineFunction := by
  have hm : manual ≠ [] := by
    intro e
    subst e
    simp [containsSub, List.isEmpty] at h
  simp only [Validation.detectCodeConflicts, if_neg hm, h, if_true]
  refine ⟨by simp, ?_⟩
  refine ⟨{ ctype := Validation.ConflictType.redefineFunction,
            message := "Manual code redefines run() function - this will override generated code".data },
    ?_, rfl⟩
  simp

/-- C8, witness: the redefine-conflict theorem applied to a concrete manual
region that redefines the entry function. -/
theorem detectCodeConflicts_reports_redefine_witness :
    containsSub "def run(vnc):\n    pass".data "def run(".data = true ∧
    ((Validation.detectCodeConflicts [] "def run(vnc):\n    pass".data).hasConflicts = true ∧
      ∃ c ∈ (Validation.detectCodeConflicts [] "def run(vnc):\n    pass".data).conflicts,
        c.ctype = Validation.ConflictType.redefineFunction) :=
  ⟨by decide,
   detectCodeConflicts_reports_redefine [] "def run(vnc):\n    pass".data (by decide)⟩

/-- C1.  The synthesizer is not idempotent as implemented: `generateCode`
interpolates the wall clock (`new Date().toISOString()`, codeGenerator.js
line 46) into the `Generated:` header line, so two calls on the same Step
list, script name and description, made at different clock readings, yield
different source text.  Evaluated here on the empty Step list with two
clock readings one millisecond apart. -/
theorem generateCode_depends_on_clock :
    generateCode [] "untitled".data [] "2024-01-01T00:00:00.000Z".data ≠
      generateCode [] "untitled".data [] "2024-01-01T00:00:00.001Z".data := by
  decide

set_option maxRecDepth 10000 in
/-- C2.  `stepToCode` has no `scroll` case (codeGenerator.js, lines
112-197): a recorded scroll Step — as the wheel handler commits it
(VNCViewer.jsx, lines 216-225), carrying direction, clicks and position —
falls through to the `default` branch and yields `null`, and the
synthesized source text contains no scroll statement of any shape: the
Step is silently dropped rather than mapped to `scroll(direction, clicks)`. -/
theorem stepToCode_drops_scroll :
    stepToCode { stype := "scroll".data, x := some 10, y := some 20,
                 direction := some "down".data, clicks := some 1 } = none ∧
    containsSub
      (generateCode
        [{ stype := "scroll".data, x := some 10, y := some 20,
           direction := some "down".data, clicks := some 1, order := 0 }]
        "s".data [] "T".data)
      "scroll".data = false := by
  decide

/-- Helper: JavaScript rounding of an exact integer is the identity. -/
theorem jsRound_intCast (n : ℤ) : jsRound ((n : ℚ)) = n := by
  unfold jsRound
  rw [add_comm, Int.floor_add_int]
  norm_num

/-- Helper: when display and remote dimensions agree, integer in-range
points map to themselves. -/
theorem scaleCoordinates_same_dims (x y w h : ℤ) (hw : 0 < w) (hh : 0 < h)
    (hx0 : 0 ≤ x) (hx1 : x ≤ w - 1) (hy0 : 0 ≤ y) (hy1 : y ≤ h - 1) :
    scaleCoordinates (x : ℚ) (y : ℚ) ⟨0, 0, (w : ℚ), (h : ℚ)⟩ w h = (x, y) := by
  have hw' : ((w : ℚ)) ≠ 0 := by
    exact_mod_cast (by omega : w ≠ 0)
  have hh' : ((h : ℚ)) ≠ 0 := by
    exact_mod_cast (by omega : h ≠ 0)
  have ex : ((x : ℚ) - 0) * ((w : ℚ) / (w : ℚ)) = ((x : ℤ) : ℚ) := by
    rw [div_self hw']
    ring
  have ey : ((y : ℚ) - 0) * ((h : ℚ) / (h : ℚ)) = ((y : ℤ) : ℚ) := by
    rw [div_self hh']
    ring
  simp only [scaleCoordinates, ex, ey, jsRound_intCast]
  rw [min_eq_left hx1, max_eq_right hx0, min_eq_left hy1, max_eq_right hy0]

/-- C7.  The coordinate mapper computes
`round(localX * remoteWidth / displayWidth)` per axis, clamped to
`[0, dimension-1]` (first conjunct, for a canvas rectangle at the origin
with positive display dimensions); the documented scenario maps local
(400,300) on an 800×600 display showing a 1600×1200 remote frame to remote
(800,600) (second conjunct); and equal display and remote dimensions give
the identity on in-range integer points (third conjunct). -/
theorem scaleCoordinates_spec :
    (∀ (lx ly dw dh : ℚ) (rmw rmh : ℤ), 0 < dw → 0 < dh →
      scaleCoordinates lx ly ⟨0, 0, dw, dh⟩ rmw rmh =
        (max 0 (min (jsRound (lx * (rmw : ℚ) / dw)) (rmw - 1)),
         max 0 (min (jsRound (ly * (rmh : ℚ) / dh)) (rmh - 1)))) ∧
    scaleCoordinates 400 300 ⟨0, 0, 800, 600⟩ 1600 1200 = (800, 600) ∧
    (∀ (x y w h : ℤ), 0 < w → 0 < h → 0 ≤ x → x ≤ w - 1 → 0 ≤ y → y ≤ h - 1 →
      scaleCoordinates (x : ℚ) (y : ℚ) ⟨0, 0, (w : ℚ), (h : ℚ)⟩ w h = (x, y)) := by
  refine ⟨?_, ?_, fun x y w h hw hh hx0 hx1 hy0 hy1 =>
    scaleCoordinates_same_dims x y w h hw hh hx0 hx1 hy0 hy1⟩
  · intro lx ly dw dh rmw rmh _ _
    have ex : (lx - 0) * ((rmw : ℚ) / dw) = lx * (rmw : ℚ) / dw := by ring
    have ey : (ly - 0) * ((rmh : ℚ) / dh) = ly * (rmh : ℚ) / dh := by ring
    simp only [scaleCoordinates, ex, ey]
  · have ex : ((400 : ℚ) - 0) * (((1600 : ℤ) : ℚ) / 800) = ((800 : ℤ) : ℚ) := by
      norm_num
    have ey : ((300 : ℚ) - 0) * (((1200 : ℤ) : ℚ) / 600) = ((600 : ℤ) : ℚ) := by
      norm_num
    simp only [scaleCoordinates, ex, ey, jsRound_intCast]
    norm_num

/-- C7, witness: the formula conjunct applied at local (10,20) on a 100×50
display showing a 200×100 remote frame, and the identity conjunct applied
at the in-range point (5,7) of a 32×32 surface. -/
theorem scaleCoordinates_spec_witness :
    ((0 : ℚ) < 100) ∧
    scaleCoordinates 10 20 ⟨0, 0, 100, 50⟩ 200 100 =
      (max 0 (min (jsRound (10 * ((200 : ℤ) : ℚ) / 100)) ((200 : ℤ) - 1)),
       max 0 (min (jsRound (20 * ((100 : ℤ) : ℚ) / 50)) ((100 : ℤ) - 1))) ∧
    scaleCoordinates ((5 : ℤ) : ℚ) ((7 : ℤ) : ℚ)
        ⟨0, 0, ((32 : ℤ) : ℚ), ((32 : ℤ) : ℚ)⟩ 32 32 = ((5 : ℤ), (7 : ℤ)) :=
  ⟨by norm_num,
   scaleCoordinates_spec.1 10 20 100 50 200 100 (by norm_num) (by norm_num),
   scaleCoordinates_spec.2.2 5 7 32 32 (by norm_num) (by norm_num) (by norm_num)
     (by norm_num) (by norm_num) (by norm_num)⟩

/-- Helper: splitting a newline-free string yields that single part. -/
theorem splitNl_no_newline (s : JStr) (h : '\n' ∉ s) : splitNl s = [s] := by
  induction s with
  | nil => simp [splitNl, splitOnChar]
  | cons c rest ih =>
    have hc : c ≠ '\n' := fun e => h (e ▸ List.mem_cons_self c rest)
    have hr : '\n' ∉ rest := fun e => h (List.mem_cons_of_mem c e)
    simp only [splitNl, splitOnChar, if_neg hc] at ih ⊢
    rw [ih hr]

/-- Helper: looking up the element just past a prefix. -/
theorem get?_append_cons (pre : List JStr) (x : JStr) (rest : List JStr) :
    (pre ++ x :: rest).get? pre.length = some x := by
  induction pre with
  | nil => rfl
  | cons a l ih => simpa using ih

/-- Helper: the run-line search finds the first matching line. -/
theorem findRunLine_append (before : List JStr) (x : JStr) (rest : List JStr)
    (n : Nat) (hb : ∀ l ∈ before, matchesDefRun l = false)
    (hx : matchesDefRun x = true) :
    findRunLine (before ++ x :: rest) n = some (n + before.length + 1) := by
  induction before generalizing n with
  | nil => simp [findRunLine, hx]
  | cons a l ih =>
    have ha : matchesDefRun a = false := hb a (List.mem_cons_self a l)
    have hl : ∀ m ∈ l, matchesDefRun m = false :=
      fun m hm => hb m (List.mem_cons_of_mem a hm)
    have step : findRunLine ((a :: l) ++ x :: rest) n =
        findRunLine (l ++ x :: rest) (n + 1) := by
      simp [findRunLine, ha]
    rw [step, ih (n + 1) hl]
    congr 1
    simp
    omega

/-- Helper: the block scan walks over blank lines without stopping. -/
theorem scanBlock_blank_prefix (base : Nat) (blanks r : List JStr) (i : Nat)
    (pl : Option Nat) (h : ∀ l ∈ blanks, trim l = []) :
    scanBlock base (blanks ++ r) i i pl =
      scanBlock base r (i + blanks.length) (i + blanks.length) pl := by
  induction blanks generalizing i with
  | nil => simp
  | cons a l ih =>
    have ha : trim a = [] := h a (List.mem_cons_self a l)
    have hl : ∀ m ∈ l, trim m = [] := fun m hm => h m (List.mem_cons_of_mem a hm)
    have hpass : (trim a = "pass".data) = False := by
      rw [ha]
      decide
    have step : scanBlock base ((a :: l) ++ r) i i pl =
        scanBlock base (l ++ r) (i + 1) (i + 1) pl := by
      simp [scanBlock, ha, hpass]
    rw [step, ih (i + 1) hl]
    congr 1 <;> · simp; omega

/-- Helper: the body collector skips blank lines. -/
theorem collectBody_blank_prefix (base : Nat) (blanks r : List JStr)
    (h : ∀ l ∈ blanks, trim l = []) :
    collectBody base (blanks ++ r) = collectBody base r := by
  induction blanks with
  | nil => simp
  | cons a l ih =>
    have ha : trim a = [] := h a (List.mem_cons_self a l)
    have hl : ∀ m ∈ l, trim m = [] := fun m hm => h m (List.mem_cons_of_mem a hm)
    have step : collectBody base ((a :: l) ++ r) = collectBody base (l ++ r) := by
      simp [collectBody, ha]
    rw [step, ih hl]

/-- Helper: the body collector skips a single blank line. -/
theorem collectBody_cons_of_blank (base : Nat) (l : JStr) (ls : List JStr)
    (h : trim l = []) : collectBody base (l :: ls) = collectBody base ls := by
  simp only [collectBody]
  rw [if_pos h]

/-- Helper: the body collector keeps a non-blank line indented more deeply
than the header. -/
theorem collectBody_cons_include (base : Nat) (l : JStr) (ls : List JStr)
    (h : trim l ≠ []) (hle : ¬ indentLen l ≤ base) :
    collectBody base (l :: ls) = l :: collectBody base ls := by
  simp only [collectBody]
  rw [if_neg h, if_neg (fun hc => hle hc.2)]

/-- Helper: trimming ignores the four-space indent. -/
theorem trim_indent (s : JStr) : trim ("    ".data ++ s) = trim s := by
  have h : ("    ".data ++ s).dropWhile isJsSpace = s.dropWhile isJsSpace := by
    show List.dropWhile isJsSpace (' ' :: ' ' :: ' ' :: ' ' :: s) = _
    simp [List.dropWhile_cons, isJsSpace]
  unfold trim
  rw [h]

/-- Helper: an indented line has positive indentation length. -/
theorem indentLen_indent_pos (s : JStr) : 0 < indentLen ("    ".data ++ s) := by
  show 0 < indentLen (' ' :: ' ' :: ' ' :: ' ' :: s)
  simp [indentLen, List.takeWhile_cons, isJsSpace]

/-- Helper: the scan over the placeholder block: the `pass` line is
recorded, blank lines are walked, and the scan stops at the boundary or
list end. -/
theorem scanBlock_pass_block (blanks r : List JStr) (n : Nat)
    (hblanks : ∀ l ∈ blanks, trim l = [])
    (hr : r = [] ∨ (trim (r.headD []) ≠ [] ∧
      ("#".data.isPrefixOf (trim (r.headD []))) = false ∧
      indentLen (r.headD []) = 0)) :
    scanBlock 0 ("    pass".data :: (blanks ++ r)) (n + 1) (n + 1) none =
      (n + 1 + 1 + blanks.length, some (n + 1 + 1)) := by
  have h1 : (indentLen "    pass".data ≤ 0) = False := by decide
  have h2 : (trim "    pass".data = "pass".data) = True := by decide
  have step1 : scanBlock 0 ("    pass".data :: (blanks ++ r)) (n + 1) (n + 1) none =
      scanBlock 0 (blanks ++ r) (n + 1 + 1) (n + 1 + 1) (some (n + 1 + 1)) := by
    simp [scanBlock, h1, h2]
  rw [step1, scanBlock_blank_prefix 0 blanks r (n + 1 + 1) (some (n + 1 + 1)) hblanks]
  rcases hr with hre | ⟨hr1, hr2, hr3⟩
  · subst hre
    simp [scanBlock]
  · cases r with
    | nil => exact absurd rfl hr1
    | cons a as =>
      simp only [List.headD_cons] at hr1 hr2 hr3
      have hcond : trim a ≠ [] ∧ ("#".data.isPrefixOf (trim a)) = false ∧
          indentLen a ≤ 0 := ⟨hr1, hr2, Nat.le_of_eq hr3⟩
      simp only [scanBlock]
      rw [if_pos hcond]

/-- C4.  Live-insertion placeholder replacement: in a buffer whose entry
function (`def run(vnc):` at indentation 0, no earlier line matching the
entry-function pattern) has as its only body line the no-op placeholder
`    pass` — followed by blank lines and then either the end of file or a
non-blank non-comment line at indentation 0 — inserting a two-line snippet
replaces the placeholder line, so the buffer becomes: header, the two
snippet lines each re-indented to the body's four-space indent, a blank
line from the insertion's trailing newline, and the untouched remainder;
the entry-function body of the result is exactly the two indented snippet
lines, with no placeholder line remaining. -/
theorem insertCode_replaces_placeholder
    (before blanks r : List JStr) (t1 t2 : JStr)
    (hbefore : ∀ l ∈ before, matchesDefRun l = false)
    (hblanks : ∀ l ∈ blanks, trim l = [])
    (hr : r = [] ∨ (trim (r.headD []) ≠ [] ∧
      ("#".data.isPrefixOf (trim (r.headD []))) = false ∧
      indentLen (r.headD []) = 0))
    (ht1 : trim t1 ≠ []) (ht2 : trim t2 ≠ [])
    (hn1 : '\n' ∉ t1) (hn2 : '\n' ∉ t2) :
    insertCodeRun
        (before ++ "def run(vnc):".data :: "    pass".data :: (blanks ++ r))
        (t1 ++ '\n' :: t2) =
      before ++ "def run(vnc):".data :: ("    ".data ++ t1) ::
        ("    ".data ++ t2) :: [] :: (blanks ++ r) ∧
    entryBodyLines
        (before ++ "def run(vnc):".data :: ("    ".data ++ t1) ::
          ("    ".data ++ t2) :: [] :: (blanks ++ r)) =
      ["    ".data ++ t1, "    ".data ++ t2] := by
  have hhdr : matchesDefRun "def run(vnc):".data = true := by decide
  have hbase : indentLen "def run(vnc):".data = 0 := by decide
  have ht1' : t1 ≠ [] := by
    intro e
    exact ht1 (by rw [e]; rfl)
  constructor
  · have hfind : findRunLine
        (before ++ "def run(vnc):".data :: "    pass".data :: (blanks ++ r)) 0 =
        some (before.length + 1) := by
      have := findRunLine_append before "def run(vnc):".data
        ("    pass".data :: (blanks ++ r)) 0 hbefore hhdr
      simpa using this
    have hget : (before ++ "def run(vnc):".data :: "    pass".data ::
        (blanks ++ r)).get? (before.length + 1 - 1) = some "def run(vnc):".data := by
      simpa using get?_append_cons before "def run(vnc):".data
        ("    pass".data :: (blanks ++ r))
    have hdrop : (before ++ "def run(vnc):".data :: "    pass".data ::
        (blanks ++ r)).drop (before.length + 1) =
        "    pass".data :: (blanks ++ r) := by
      have e : before ++ "def run(vnc):".data :: "    pass".data :: (blanks ++ r) =
          (before ++ ["def run(vnc):".data]) ++ ("    pass".data :: (blanks ++ r)) := by
        simp
      rw [e, show before.length + 1 = (before ++ ["def run(vnc):".data]).length by simp,
        List.drop_left]
    have hscan := scanBlock_pass_block blanks r before.length hblanks hr
    have hpos : findInsertionPosition
        (before ++ "def run(vnc):".data :: "    pass".data :: (blanks ++ r)) =
        some { lineNumber := backtrackBlank
                 (before ++ "def run(vnc):".data :: "    pass".data :: (blanks ++ r))
                 (before.length + 1) (before.length + 1 + 1 + blanks.length)
               column := 1
               indent := "    ".data
               replacePass := true
               replaceLine := before.length + 1 + 1 } := by
      simp only [findInsertionPosition, hfind, hget, Option.getD_some, hbase,
        hdrop, hscan, Option.isSome_some, Option.getD_some]
    have hsplit : splitNl (t1 ++ '\n' :: t2) = [t1, t2] := by
      rw [splitNl_append_newline, splitNl_no_newline t1 hn1,
        splitNl_no_newline t2 hn2]
      rfl
    have htake : (before ++ "def run(vnc):".data :: "    pass".data ::
        (blanks ++ r)).take (before.length + 1 + 1 - 1) =
        before ++ ["def run(vnc):".data] := by
      have e : before ++ "def run(vnc):".data :: "    pass".data :: (blanks ++ r) =
          (before ++ ["def run(vnc):".data]) ++ ("    pass".data :: (blanks ++ r)) := by
        simp
      rw [e, show before.length + 1 + 1 - 1 = (before ++ ["def run(vnc):".data]).length
        by simp, List.take_left]
    have hdrop2 : (before ++ "def run(vnc):".data :: "    pass".data ::
        (blanks ++ r)).drop (before.length + 1 + 1) = blanks ++ r := by
      have e : before ++ "def run(vnc):".data :: "    pass".data :: (blanks ++ r) =
          (before ++ ["def run(vnc):".data, "    pass".data]) ++ (blanks ++ r) := by
        simp
      rw [e, show before.length + 1 + 1 =
        (before ++ ["def run(vnc):".data, "    pass".data]).length by simp,
        List.drop_left]
    have hnx1 : '\n' ∉ "    ".data ++ t1 := by
      intro hmem
      rcases List.mem_append.mp hmem with hm | hm
      · exact absurd hm (by decide)
      · exact hn1 hm
    have hnx2 : '\n' ∉ "    ".data ++ t2 := by
      intro hmem
      rcases List.mem_append.mp hmem with hm | hm
      · exact absurd hm (by decide)
      · exact hn2 hm
    have hsplitT : splitNl ((("    ".data ++ t1) ++ '\n' :: ("    ".data ++ t2)) ++
        ['\n']) = ["    ".data ++ t1, "    ".data ++ t2, []] := by
      have e : (("    ".data ++ t1) ++ '\n' :: ("    ".data ++ t2)) ++ ['\n'] =
          ("    ".data ++ t1) ++ '\n' :: (("    ".data ++ t2) ++ '\n' :: []) := by
        simp
      rw [e, splitNl_append_newline, splitNl_no_newline _ hnx1,
        splitNl_append_newline, splitNl_no_newline _ hnx2]
      rfl
    have hT : indentForReplace "    ".data (t1 ++ '\n' :: t2) =
        (("    ".data ++ t1) ++ '\n' :: ("    ".data ++ t2)) ++ ['\n'] := by
      rw [indentForReplace, hsplit]
      have e2 : List.map
          (fun p => if p.1 = 0 ∧ p.2 = [] then [] else "    ".data ++ p.2)
          (List.enum [t1, t2]) = ["    ".data ++ t1, "    ".data ++ t2] := by
        simp [List.enum, List.enumFrom, ht1']
      rw [e2]
      rfl
    rw [insertCodeRun, hpos]
    simp only [ite_true]
    rw [hT, replaceLineWith, htake, hdrop2, hsplitT]
    simp
  · have hfind2 : findRunLine
        (before ++ "def run(vnc):".data :: ("    ".data ++ t1) ::
          ("    ".data ++ t2) :: [] :: (blanks ++ r)) 0 =
        some (before.length + 1) := by
      have := findRunLine_append before "def run(vnc):".data
        (("    ".data ++ t1) :: ("    ".data ++ t2) :: [] :: (blanks ++ r)) 0
        hbefore hhdr
      simpa using this
    have hget2 : (before ++ "def run(vnc):".data :: ("    ".data ++ t1) ::
        ("    ".data ++ t2) :: [] :: (blanks ++ r)).get? (before.length + 1 - 1) =
        some "def run(vnc):".data := by
      simpa using get?_append_cons before "def run(vnc):".data
        (("    ".data ++ t1) :: ("    ".data ++ t2) :: [] :: (blanks ++ r))
    have hdrop3 : (before ++ "def run(vnc):".data :: ("    ".data ++ t1) ::
        ("    ".data ++ t2) :: [] :: (blanks ++ r)).drop (before.length + 1) =
        ("    ".data ++ t1) :: ("    ".data ++ t2) :: [] :: (blanks ++ r) := by
      have e : before ++ "def run(vnc):".data :: ("    ".data ++ t1) ::
          ("    ".data ++ t2) :: [] :: (blanks ++ r) =
          (before ++ ["def run(vnc):".data]) ++
            (("    ".data ++ t1) :: ("    ".data ++ t2) :: [] :: (blanks ++ r)) := by
        simp
      rw [e, show before.length + 1 = (before ++ ["def run(vnc):".data]).length by simp,
        List.drop_left]
    have hx1 : trim ("    ".data ++ t1) ≠ [] := by
      rw [trim_indent]
      exact ht1
    have hx2 : trim ("    ".data ++ t2) ≠ [] := by
      rw [trim_indent]
      exact ht2
    have hi1 : ¬ indentLen ("    ".data ++ t1) ≤ 0 := by
      have := indentLen_indent_pos t1
      omega
    have hi2 : ¬ indentLen ("    ".data ++ t2) ≤ 0 := by
      have := indentLen_indent_pos t2
      omega
    have hcollect : collectBody 0 (([] : JStr) :: (blanks ++ r)) = [] := by
      have e : (([] : JStr) :: (blanks ++ r)) = (([] : JStr) :: blanks) ++ r := by
        simp
      have hb : ∀ l ∈ (([] : JStr) :: blanks), trim l = [] := by
        intro l hl
        rcases List.mem_cons.mp hl with h | h
        · rw [h]; rfl
        · exact hblanks l h
      rw [e, collectBody_blank_prefix 0 _ r hb]
      rcases hr with hre | ⟨hr1, hr2, hr3⟩
      · subst hre
        rfl
      · cases r with
        | nil => exact absurd rfl hr1
        | cons a as =>
          simp only [List.headD_cons] at hr1 hr2 hr3
          simp [collectBody, hr1, hr2, Nat.le_of_eq hr3]
    rw [entryBodyLines, hfind2]
    simp only [hget2, Option.getD_some, hbase, hdrop3]
    rw [collectBody_cons_include 0 _ _ hx1 hi1,
      collectBody_cons_include 0 _ _ hx2 hi2, hcollect]

set_option maxRecDepth 10000 in
/-- C4, witness: the placeholder-replacement theorem applied to the
standard empty generated buffer and the two-line snippet
`vnc.wait(1.5)` / `vnc.click(10, 20)`. -/
theorem insertCode_replaces_placeholder_witness :
    trim "vnc.wait(1.5)".data ≠ [] ∧
    insertCodeRun
        ["def run(vnc):".data, "    pass".data, [], "if __name__:".data]
        "vnc.wait(1.5)\nvnc.click(10, 20)".data =
      ["def run(vnc):".data, "    vnc.wait(1.5)".data,
       "    vnc.click(10, 20)".data, [], [], "if __name__:".data] ∧
    entryBodyLines
        ["def run(vnc):".data, "    vnc.wait(1.5)".data,
         "    vnc.click(10, 20)".data, [], [], "if __name__:".data] =
      ["    vnc.wait(1.5)".data, "    vnc.click(10, 20)".data] := by
  have h := insertCode_replaces_placeholder [] [[]] ["if __name__:".data]
    "vnc.wait(1.5)".data "vnc.click(10, 20)".data
    (by intro l hl; simp at hl)
    (by
      intro l hl
      simp at hl
      subst hl
      rfl)
    (Or.inr ⟨by decide, by decide, by decide⟩)
    (by decide) (by decide) (by decide) (by decide)
  obtain ⟨h1, h2⟩ := h
  refine ⟨by decide, ?_, ?_⟩
  · have e1 : ([] : List JStr) ++ "def run(vnc):".data :: "    pass".data ::
        (([[]] : List JStr) ++ ["if __name__:".data]) =
        ["def run(vnc):".data, "    pass".data, [], "if __name__:".data] := by
      decide
    have e2 : "vnc.wait(1.5)".data ++ '\n' :: "vnc.click(10, 20)".data =
        "vnc.wait(1.5)\nvnc.click(10, 20)".data := by decide
    have e3 : ([] : List JStr) ++ "def run(vnc):".data ::
        ("    ".data ++ "vnc.wait(1.5)".data) ::
        ("    ".data ++ "vnc.click(10, 20)".data) :: [] ::
        (([[]] : List JStr) ++ ["if __name__:".data]) =
        ["def run(vnc):".data, "    vnc.wait(1.5)".data,
         "    vnc.click(10, 20)".data, [], [], "if __name__:".data] := by
      decide
    rw [e1, e2, e3] at h1
    exact h1
  · have e3 : ([] : List JStr) ++ "def run(vnc):".data ::
        ("    ".data ++ "vnc.wait(1.5)".data) ::
        ("    ".data ++ "vnc.click(10, 20)".data) :: [] ::
        (([[]] : List JStr) ++ ["if __name__:".data]) =
        ["def run(vnc):".data, "    vnc.wait(1.5)".data,
         "    vnc.click(10, 20)".data, [], [], "if __name__:".data] := by
      decide
    have e4 : ["    ".data ++ "vnc.wait(1.5)".data,
        "    ".data ++ "vnc.click(10, 20)".data] =
        ["    vnc.wait(1.5)".data, "    vnc.click(10, 20)".data] := by decide
    rw [e3, e4] at h2
    exact h2

/-- C5.  Click debounce: starting from a fresh session, a primary-button
release classified as a plain click at time `t1` followed by a release at
the same point resolving as a double-click (click count 2) at time
`t2 < t1 + 250` commits exactly one Action — the double-click — and never
two: the buffered plain click's timer has not fired when the second
release arrives, and the second release cancels it. -/
theorem processMouseAction_debounce (g : Geometry) (x y : ℚ) (t1 t2 : ℕ)
    (h1 : t1 ≤ t2) (h2 : t2 < t1 + 250) :
    runReleases g false {} [⟨x, y, 0, 1, t1⟩, ⟨x, y, 0, 2, t2⟩] =
      [{ atype := "double_click".data,
         x := (scaleCoordinates x y g.rect g.screenWidth g.screenHeight).1,
         y := (scaleCoordinates x y g.rect g.screenWidth g.screenHeight).2,
         delay_before := delayBefore (some t1) t2, time := t2 }] := by
  have hflush : (t1 + 250 ≤ t2) = False := eq_false (by omega)
  simp +decide [runReleases, flushPending, processMouseAction, hflush]

/-- C5, witness: the debounce theorem applied at the point (5,7) of a
32×32 surface with releases at 1000ms and 1100ms. -/
theorem processMouseAction_debounce_witness :
    (1000 : ℕ) ≤ 1100 ∧ (1100 : ℕ) < 1000 + 250 ∧
    runReleases ⟨⟨0, 0, 32, 32⟩, 32, 32⟩ false {}
        [⟨5, 7, 0, 1, 1000⟩, ⟨5, 7, 0, 2, 1100⟩] =
      [{ atype := "double_click".data, x := 5, y := 7,
         delay_before := delayBefore (some 1000) 1100, time := 1100 }] := by
  refine ⟨by norm_num, by norm_num, ?_⟩
  have h := processMouseAction_debounce ⟨⟨0, 0, 32, 32⟩, 32, 32⟩ 5 7 1000 1100
    (by norm_num) (by norm_num)
  rw [h]
  have hs : scaleCoordinates (5 : ℚ) (7 : ℚ) ⟨0, 0, 32, 32⟩ 32 32 =
      ((5 : ℤ), (7 : ℤ)) := by
    have h32 := scaleCoordinates_same_dims 5 7 32 32 (by norm_num) (by norm_num)
      (by norm_num) (by norm_num) (by norm_num) (by norm_num)
    convert h32 using 2
  simp [hs]

/-- Helper: once dragging, further moves leave the drag state unchanged. -/
theorem handleMouseMoveCapture_sticky (d : DragData) (h : d.isDragging = true)
    (moves : List Ev) :
    moves.foldl (fun dd e => handleMouseMoveCapture e dd) (some d) = some d := by
  induction moves with
  | nil => rfl
  | cons e es ih =>
    simp only [List.foldl_cons, handleMouseMoveCapture, h, ite_true]
    exact ih

/-- C6.  Drag classification.  First conjunct: from a pending (not yet
dragging) interaction, a sequence of moves transitions to dragging exactly
when some move's displacement from the start exceeds 10 units on either
axis (strictly — a displacement of exactly 10 does not trigger, 11 does).
Second conjunct: button-up while dragging commits exactly one Action, a
drag carrying the start and end remote coordinates, and clears the drag
state — no click Action is emitted. -/
theorem drag_threshold_classification :
    (∀ (d : DragData) (moves : List Ev), d.isDragging = false →
      moves.foldl (fun dd e => handleMouseMoveCapture e dd) (some d) =
        some { d with isDragging :=
                moves.any (fun e =>
                  decide (10 < abs (e.clientX - d.clientStartX)) ||
                    decide (10 < abs (e.clientY - d.clientStartY))) }) ∧
    (∀ (g : Geometry) (smart : Bool) (e : Ev) (p : PendingState) (d : DragData),
      d.isDragging = true →
      handleMouseUpCapture g smart e ⟨some d, p⟩ =
        (⟨none, { pendingClick := p.pendingClick,
                  lastActionTime := some e.time }⟩,
         [{ atype := "drag".data, x := d.startX, y := d.startY,
            end_x := some (scaleCoordinates e.clientX e.clientY g.rect
              g.screenWidth g.screenHeight).1,
            end_y := some (scaleCoordinates e.clientX e.clientY g.rect
              g.screenWidth g.screenHeight).2,
            delay_before := delayBefore p.lastActionTime e.time,
            time := e.time }])) := by
  constructor
  · intro d moves h
    induction moves generalizing d with
    | nil =>
      cases d
      simp_all
    | cons e es ih =>
      by_cases hc : 10 < |e.clientX - d.clientStartX| ∨
          10 < |e.clientY - d.clientStartY|
      · have hstep : handleMouseMoveCapture e (some d) =
            some { d with isDragging := true } := by
          simp [handleMouseMoveCapture, h, hc]
        have hany : (e :: es).any
            (fun e => decide (10 < abs (e.clientX - d.clientStartX)) ||
              decide (10 < abs (e.clientY - d.clientStartY))) = true := by
          rcases hc with hx | hy
          · simp [List.any_cons, hx]
          · simp [List.any_cons, hy]
        simp only [List.foldl_cons, hstep, hany]
        exact handleMouseMoveCapture_sticky { d with isDragging := true } rfl es
      · have hstep : handleMouseMoveCapture e (some d) = some d := by
          simp [handleMouseMoveCapture, h, hc]
        have hx : ¬ 10 < |e.clientX - d.clientStartX| := fun hh => hc (Or.inl hh)
        have hy : ¬ 10 < |e.clientY - d.clientStartY| := fun hh => hc (Or.inr hh)
        simp only [List.foldl_cons, hstep, List.any_cons, hx, hy,
          decide_eq_false, Bool.false_or]
        exact ih d h
  · intro g smart e p d h
    simp [handleMouseUpCapture, h]

/-- C6, witness: the drag-classification theorem applied to a pending
interaction started at the origin — a move of exactly 10 units leaves it
pending, a move of 11 units makes it dragging — and to a button-up of a
dragging interaction from remote (1,2) ending at (3,4) on a 32×32
surface. -/
theorem drag_threshold_classification_witness :
    (⟨0, 0, 0, 0, false, 0, 1⟩ : DragData).isDragging = false ∧
    [(⟨10, 0, 0, 1, 5⟩ : Ev)].foldl (fun dd e => handleMouseMoveCapture e dd)
        (some ⟨0, 0, 0, 0, false, 0, 1⟩) = some ⟨0, 0, 0, 0, false, 0, 1⟩ ∧
    [(⟨11, 0, 0, 1, 5⟩ : Ev)].foldl (fun dd e => handleMouseMoveCapture e dd)
        (some ⟨0, 0, 0, 0, false, 0, 1⟩) = some ⟨0, 0, 0, 0, true, 0, 1⟩ ∧
    handleMouseUpCapture ⟨⟨0, 0, 32, 32⟩, 32, 32⟩ false ⟨3, 4, 0, 1, 9⟩
        ⟨some ⟨1, 2, 0, 0, true, 0, 1⟩, {}⟩ =
      (⟨none, { pendingClick := none, lastActionTime := some 9 }⟩,
       [{ atype := "drag".data, x := 1, y := 2, end_x := some 3, end_y := some 4,
          delay_before := delayBefore none 9, time := 9 }]) := by
  refine ⟨rfl, ?_, ?_, ?_⟩
  · have h := drag_threshold_classification.1 ⟨0, 0, 0, 0, false, 0, 1⟩
      [⟨10, 0, 0, 1, 5⟩] rfl
    rw [h]
    norm_num [List.any_cons, List.any_nil]
  · have h := drag_threshold_classification.1 ⟨0, 0, 0, 0, false, 0, 1⟩
      [⟨11, 0, 0, 1, 5⟩] rfl
    rw [h]
    norm_num [List.any_cons, List.any_nil]
  · have h := drag_threshold_classification.2 ⟨⟨0, 0, 32, 32⟩, 32, 32⟩ false
      ⟨3, 4, 0, 1, 9⟩ {} ⟨1, 2, 0, 0, true, 0, 1⟩ rfl
    rw [h]
    have hs : scaleCoordinates (3 : ℚ) (4 : ℚ) ⟨0, 0, 32, 32⟩ 32 32 =
        ((3 : ℤ), (4 : ℤ)) := by
      have h32 := scaleCoordinates_same_dims 3 4 32 32 (by norm_num) (by norm_num)
        (by norm_num) (by norm_num) (by norm_num) (by norm_num)
      convert h32 using 2
    simp [hs]

/-- C9.  `handleVNCInteraction` spawns a detached async task per
template-capture interaction and returns; no FIFO per-script insertion
queue exists and no pending insertion is awaited before the next
(StepTimeline.jsx, lines 749-809).  In the modelled event-loop semantics,
two interactions committed in order 0 then 1 whose captures resolve at
100ms and 50ms land their insertions in resolve order [1, 0], not the
commit order [0, 1] the claim requires. -/
theorem handleVNCInteraction_insertions_race :
    AsyncInsert.insertionOrder [⟨0, 100⟩, ⟨1, 50⟩] = [1, 0] ∧
    AsyncInsert.insertionOrder [⟨0, 100⟩, ⟨1, 50⟩] ≠ [0, 1] := by
  decide
